import Mathlib

/-!
Verification development for the rule engine of this repository: a shallow
embedding of the AST-utility layer (generic traversal, classifiers, usage
analysis) and of the individual rule callbacks (no-empty-catch,
one-component-per-file, no-response-data-return), together with the
memo import strategy selector and the type-annotation fix synthesizer.

JavaScript runtime objects are modelled as follows: an AST node is a type
tag, a list of scalar string attributes, and an ordered list of
(fieldKey, childNode) entries; an array-valued field appears as several
consecutive entries sharing one key, preserving field order then index
order exactly as `for key in node` iteration sees them.  Possibly-missing
children (`undefined` at runtime) are `Option`.  A JS `Set` of strings is
modelled by a list queried through membership.  Mutable accumulation in a
rule closure is modelled by explicit state threading through a fold over
the callback invocations, in traversal order.
-/

/-! ## Generic node model -/

mutual

/-- Generic AST node: type tag, scalar string attributes, and child fields
in declaration order (array fields flattened, order preserved). -/
inductive ANode where
  | mk (ty : String) (attrs : List (String × String)) (fields : AFields)

/-- Ordered child-field entries of a node. -/
inductive AFields where
  | nil
  | cons (key : String) (child : ANode) (rest : AFields)

end

/-- Type tag of a node. -/
def ANode.ty : ANode → String
  | .mk t _ _ => t

/-- Scalar attributes of a node. -/
def ANode.attrs : ANode → List (String × String)
  | .mk _ a _ => a

/-- Child fields of a node. -/
def ANode.fields : ANode → AFields
  | .mk _ _ f => f

/-- Number of entries of a field list carrying the given key (the length of
that array-valued field). -/
def AFields.countKey (k : String) : AFields → Nat
  | .nil => 0
  | .cons k2 _ rest => (if k2 == k then 1 else 0) + AFields.countKey k rest

/-- Field keys skipped by the catch-parameter usage search in
`no-empty-catch` (`parent`, `range`, `loc`). -/
def skippedKey (k : String) : Bool :=
  k == "parent" || k == "range" || k == "loc"

/-! ## checkIfParamUsed (src/rules/error-handling/no-empty-catch.ts) -/

mutual

/-- Embeds the inner `traverse` of `checkIfParamUsed`: the mutable `isUsed`
flag is threaded as `u`; a node whose type is `Identifier` with matching
`name` sets it; otherwise every child field except `parent`, `range`,
`loc` is descended into. -/
def chkNode (p : String) (u : Bool) : ANode → Bool
  | .mk ty attrs fields =>
    if u then true
    else if ty == "Identifier" && attrs.lookup "name" == some p then true
    else chkFields p u fields

/-- Field loop of `checkIfParamUsed`, threading the `isUsed` flag. -/
def chkFields (p : String) (u : Bool) : AFields → Bool
  | .nil => u
  | .cons k c rest =>
    if skippedKey k then chkFields p u rest
    else chkFields p (chkNode p u c) rest

end

/-- Embeds `checkIfParamUsed(block, paramName)`. -/
def checkIfParamUsed (block : ANode) (p : String) : Bool :=
  chkNode p false block

mutual

/-- Declarative reading of the usage search: some `Identifier` node named
`p` occurs in the tree, reachable without passing through a `parent`,
`range` or `loc` field. -/
def identOccurs (p : String) : ANode → Bool
  | .mk ty attrs fields =>
    (ty == "Identifier" && attrs.lookup "name" == some p) || identOccursF p fields

/-- Field-list form of `identOccurs`. -/
def identOccursF (p : String) : AFields → Bool
  | .nil => false
  | .cons k c rest =>
    (!skippedKey k && identOccurs p c) || identOccursF p rest

end

/-! ## ast-helpers: isEffectivelyEmpty, hasIntentionalIgnoreComment -/

/-- Runtime shape of a `CatchClause` as the rule sees it; `Option` models a
missing (`undefined`) child. -/
structure CatchNode where
  param : Option ANode
  body : Option ANode
  range : Option (Nat × Nat)

/-- Embeds `isEffectivelyEmpty`: missing or non-block body counts as empty
(the function returns `true` on malformed shapes); otherwise the statement
array must have length zero.  A block whose statement array is missing
makes the original throw on `.length`, which the wrapping `catch` turns
into `true`; `countKey` returning `0` there agrees. -/
def isEffectivelyEmpty (c : CatchNode) : Bool :=
  match c.body with
  | none => true
  | some b =>
    if b.ty != "BlockStatement" then true
    else AFields.countKey "body" b.fields == 0

/-- One source comment: its text and source range. -/
structure RComment where
  value : String
  range : Option (Nat × Nat)

/-- Lower-cased character list of a string (the `/i` regex flag). -/
def lcList (s : String) : List Char :=
  s.data.map Char.toLower

/-- Substring search on character lists (JS `String.includes`). -/
def listIncludes (pat : List Char) : List Char → Bool
  | [] => pat.isEmpty
  | a :: t => pat.isPrefixOf (a :: t) || listIncludes pat t

/-- Whitespace characters matched by the regex class `\s` (the forms the
ignore-comment patterns can meet). -/
def isWSChar (c : Char) : Bool :=
  c == ' ' || c == '\t' || c == '\n' || c == '\r'

/-- Drop a leading whitespace run. -/
def dropWS : List Char → List Char
  | [] => []
  | c :: t => if isWSChar c then dropWS t else c :: t

/-- After a matched first word: require at least one whitespace character,
then the second word (regex `\s+` followed by a literal that starts with a
non-whitespace character). -/
def wsGap (b : List Char) (l : List Char) : Bool :=
  match l with
  | [] => false
  | c :: t => isWSChar c && b.isPrefixOf (dropWS t)

/-- Search for `a`, one-or-more whitespace, then `b` (the regex
`a\s+b` tested anywhere in the text). -/
def seqSearch (a b : List Char) : List Char → Bool
  | [] => false
  | c :: t => (a.isPrefixOf (c :: t) && wsGap b ((c :: t).drop a.length)) || seqSearch a b t

/-- Embeds the five ignore-intent regexes of `hasIntentionalIgnoreComment`,
case-insensitively: `intentionally\s+ignored?`, `deliberately\s+ignored?`,
`ignore\s+error`, `no-op`, `noop` (the optional trailing `d` never affects
a search hit). -/
def ignoreCommentMatch (s : String) : Bool :=
  let l := lcList s
  seqSearch "intentionally".data "ignore".data l ||
  seqSearch "deliberately".data "ignore".data l ||
  seqSearch "ignore".data "error".data l ||
  listIncludes "no-op".data l ||
  listIncludes "noop".data l

/-- Embeds `hasIntentionalIgnoreComment`: false on missing or non-block
body; otherwise some comment lying inside the clause's source range (false
when the clause has no range) matches an ignore pattern. -/
def hasIntentionalIgnoreComment (c : CatchNode) (comments : List RComment) : Bool :=
  match c.body with
  | none => false
  | some b =>
    if b.ty != "BlockStatement" then false
    else
      (comments.filter (fun cm =>
        match c.range, cm.range with
        | some se, some cr => decide (se.1 ≤ cr.1 ∧ cr.2 ≤ se.2)
        | _, _ => false)).any (fun cm => ignoreCommentMatch cm.value)

/-! ## The CatchClause callback of no-empty-catch -/

/-- A lexer token: start and end offset. -/
structure Token where
  tokStart : Nat
  tokEnd : Nat

/-- The slice of `SourceCode` the rule consults: raw text, token stream,
comment list. -/
structure SourceCode where
  text : String
  tokens : List Token
  comments : List RComment

/-- Embeds `sourceCode.getFirstToken(node)`: the first token lying inside
the node's range. -/
def getFirstToken (sc : SourceCode) (c : CatchNode) : Option Token :=
  match c.range with
  | none => none
  | some se => sc.tokens.find? (fun t => decide (se.1 ≤ t.tokStart ∧ t.tokEnd ≤ se.2))

/-- A single text insertion produced by a fixer. -/
structure TextEdit where
  pos : Nat
  text : String
  deriving DecidableEq

/-- Diagnostic emitted by no-empty-catch: message id, interpolation data,
optional fix. -/
structure ECDiag where
  messageId : String
  data : List (String × String)
  fix : Option TextEdit
  deriving DecidableEq

/-- Embeds the `CatchClause` callback of no-empty-catch: an empty clause
without ignore marker yields the `emptyCatch` diagnostic whose fix inserts
` // intentionally ignored` directly after the first token of the clause
(`insertTextAfter` on the `catch` keyword, `null` when no token is found);
a non-empty clause without marker whose `Identifier` parameter is never
found by `checkIfParamUsed` yields the fix-less `unusedParam` diagnostic.
A missing body makes the usage check see `undefined` and report unused. -/
def noEmptyCatchHandler (sc : SourceCode) (node : CatchNode) : List ECDiag :=
  let isEmpty := isEffectivelyEmpty node
  let ignored := hasIntentionalIgnoreComment node sc.comments
  let emptyDiags : List ECDiag :=
    if isEmpty && !ignored then
      [{ messageId := "emptyCatch", data := [],
         fix := match getFirstToken sc node with
                | some t => some { pos := t.tokEnd, text := " // intentionally ignored" }
                | none => none }]
    else []
  let unusedDiags : List ECDiag :=
    if !isEmpty && !ignored then
      match node.param with
      | some p =>
        if p.ty == "Identifier" then
          match p.attrs.lookup "name" with
          | some nm =>
            let used := match node.body with
                        | some b => checkIfParamUsed b nm
                        | none => false
            if !used then
              [{ messageId := "unusedParam", data := [("paramName", nm)], fix := none }]
            else []
          | none => []
        else []
      | none => []
    else []
  emptyDiags ++ unusedDiags

/-- Apply one insertion edit to source text. -/
def applyEdit (s : String) (e : TextEdit) : String :=
  ⟨s.data.take e.pos ++ e.text.data ++ s.data.drop e.pos⟩

/-! ## Concrete catch-clause fixtures -/

/-- An `Identifier` node with the given name. -/
def identA (nm : String) : ANode :=
  .mk "Identifier" [("name", nm)] .nil

/-- The member expression `data.error`. -/
def memberDataError : ANode :=
  .mk "MemberExpression" [] (.cons "object" (identA "data") (.cons "property" (identA "error") .nil))

/-- The call `log(data.error)`. -/
def callLogData : ANode :=
  .mk "CallExpression" [] (.cons "callee" (identA "log") (.cons "arguments" memberDataError .nil))

/-- Block `{ log(data.error); }`: the name `error` occurs only as a
member-access property. -/
def blockEx1 : ANode :=
  .mk "BlockStatement" []
    (.cons "body" (.mk "ExpressionStatement" [] (.cons "expression" callLogData .nil)) .nil)

/-- The object literal `({ error: 1 })` inside a block: the name `error`
occurs only as an object key. -/
def blockEx2 : ANode :=
  .mk "BlockStatement" []
    (.cons "body"
      (.mk "ExpressionStatement" []
        (.cons "expression"
          (.mk "ObjectExpression" []
            (.cons "properties"
              (.mk "Property" []
                (.cons "key" (identA "error")
                  (.cons "value" (.mk "Literal" [("value", "1")] .nil) .nil)))
              .nil))
          .nil))
      .nil)

/-- Source-code stub with no tokens and no comments. -/
def scEmptySrc : SourceCode :=
  { text := "", tokens := [], comments := [] }

/-- Catch clause whose block uses `error` only as a member property. -/
def catchUsedEx : CatchNode :=
  { param := some (identA "error"), body := some blockEx1, range := some (0, 40) }

/-- Block of `catch (error) { console.log('x'); }`. -/
def blockLog : ANode :=
  .mk "BlockStatement" []
    (.cons "body"
      (.mk "ExpressionStatement" []
        (.cons "expression"
          (.mk "CallExpression" []
            (.cons "callee"
              (.mk "MemberExpression" []
                (.cons "object" (identA "console") (.cons "property" (identA "log") .nil)))
              (.cons "arguments" (.mk "Literal" [("value", "x")] .nil) .nil)))
          .nil))
      .nil)

/-- The clause `catch (error) { console.log('x'); }`. -/
def catchLog : CatchNode :=
  { param := some (identA "error"), body := some blockLog, range := some (0, 38) }

/-- Source-code stub for `catchLog` (only its empty comment list is
consulted on the unused-parameter path). -/
def scLog : SourceCode :=
  { text := "catch (error) \x7b console.log(\x27x\x27); \x7d", tokens := [], comments := [] }

/-- A malformed catch clause: parameter, body and range all missing. -/
def malformedCatch : CatchNode :=
  { param := none, body := none, range := none }

/-- The clause `catch (e) {}` with its source text and token stream. -/
def catchE : CatchNode :=
  { param := some (identA "e"), body := some (.mk "BlockStatement" [] .nil), range := some (0, 12) }

/-- Source code of `catch (e) {}`: the token `catch` spans offsets 0-5. -/
def scCatchE : SourceCode :=
  { text := "catch (e) \x7b\x7d",
    tokens := [⟨0, 5⟩, ⟨6, 7⟩, ⟨7, 8⟩, ⟨8, 9⟩, ⟨10, 11⟩, ⟨11, 12⟩],
    comments := [] }

/-! ## Expression / component model (utils/ast-helpers.ts, JSX side) -/

/-- Expressions as the classifiers and the service rule inspect them. -/
inductive JExpr where
  | jsxElement
  | jsxFragment
  | ident (name : String)
  | lit
  | member (obj prop : JExpr)
  | chainE (e : JExpr)
  | otherE
  deriving DecidableEq

/-- Statements: only `return` with optional argument is distinguished. -/
inductive JStmt where
  | ret (arg : Option JExpr)
  | otherS
  deriving DecidableEq

/-- Body of an arrow function: bare expression or statement block. -/
inductive FnBody where
  | exprBody (e : JExpr)
  | blockBody (stmts : List JStmt)
  deriving DecidableEq

/-- The function-like nodes accepted by `returnsJSX`. -/
inductive FnNode where
  | funcDecl (id : Option String) (stmts : List JStmt)
  | arrowFn (body : FnBody)
  | funcExpr (stmts : List JStmt)
  deriving DecidableEq

/-- A node is JSX when it is a JSXElement or JSXFragment. -/
def isJSXNode : JExpr → Bool
  | .jsxElement => true
  | .jsxFragment => true
  | _ => false

/-- Scan of a block body: some top-level return statement with a JSX
argument. -/
def blockReturnsJSX (stmts : List JStmt) : Bool :=
  stmts.any fun s =>
    match s with
    | .ret (some a) => isJSXNode a
    | _ => false

/-- Embeds `returnsJSX`: an arrow with expression body checks that
expression; any block-bodied function scans its top-level returns. -/
def returnsJSX : FnNode → Bool
  | .arrowFn (.exprBody e) => isJSXNode e
  | .arrowFn (.blockBody stmts) => blockReturnsJSX stmts
  | .funcDecl _ stmts => blockReturnsJSX stmts
  | .funcExpr stmts => blockReturnsJSX stmts

/-- Initializer of a variable declarator. -/
inductive InitExpr where
  | arrowInit (body : FnBody)
  | funcExprInit (stmts : List JStmt)
  | otherInit
  deriving DecidableEq

/-- The node shapes `isReactComponent` distinguishes. -/
inductive RCNode where
  | funcDeclR (id : Option String) (stmts : List JStmt)
  | varDeclR (id : Option String) (init : Option InitExpr)
  | classDeclR (id : Option String) (superClass : Option JExpr)
  | otherR
  deriving DecidableEq

/-- Embeds `isReactComponent`: function declarations and variable-bound
arrow/function expressions must return JSX; class declarations must extend
`React.Component`, `React.PureComponent`, `Component` or `PureComponent`;
everything else (including malformed shapes, e.g. a declarator with no
initializer) is `false`. -/
def isReactComponent : RCNode → Bool
  | .funcDeclR i stmts => returnsJSX (.funcDecl i stmts)
  | .varDeclR _ (some (.arrowInit b)) => returnsJSX (.arrowFn b)
  | .varDeclR _ (some (.funcExprInit stmts)) => returnsJSX (.funcExpr stmts)
  | .varDeclR _ _ => false
  | .classDeclR _ (some sc) =>
    match sc with
    | .member (.ident o) (.ident pr) => o == "React" && (pr == "Component" || pr == "PureComponent")
    | .ident nm => nm == "Component" || nm == "PureComponent"
    | _ => false
  | .classDeclR _ none => false
  | .otherR => false

/-! ## one-component-per-file (src/rules/component/one-component-per-file.ts) -/

/-- One callback invocation of the rule, in traversal order. -/
inductive CEvent where
  | funcDeclE (id : Option String) (stmts : List JStmt)
  | varDeclE (id : Option String) (init : Option InitExpr)
  | classDeclE (id : Option String) (superClass : Option JExpr)
  | assignE (left right : JExpr)
  deriving DecidableEq

/-- Entry of the rule's `components` accumulator. -/
structure CompInfo where
  name : String
  node : CEvent
  isCompoundChild : Bool
  deriving DecidableEq

/-- What the three definition handlers push for an event: the component
info when `isReactComponent` accepts the node (name defaulting to
`anonymous`), nothing otherwise. -/
def defEntry : CEvent → Option CompInfo
  | .funcDeclE i stmts =>
    if isReactComponent (.funcDeclR i stmts) then
      some { name := i.getD "anonymous", node := .funcDeclE i stmts, isCompoundChild := false }
    else none
  | .varDeclE i init =>
    if isReactComponent (.varDeclR i init) then
      some { name := i.getD "anonymous", node := .varDeclE i init, isCompoundChild := false }
    else none
  | .classDeclE i sc =>
    if isReactComponent (.classDeclR i sc) then
      some { name := i.getD "anonymous", node := .classDeclE i sc, isCompoundChild := false }
    else none
  | .assignE _ _ => none

/-- What the `AssignmentExpression` handler adds to `compoundChildren`:
the right-hand identifier of `Ident.Ident = Ident`. -/
def compoundEntry : CEvent → Option String
  | .assignE (.member (.ident _) (.ident _)) (.ident rn) => some rn
  | _ => none

/-- One callback step of the rule: the component list and the
compound-children set, threaded in traversal order. -/
def stepEvent (st : List CompInfo × List String) (e : CEvent) : List CompInfo × List String :=
  let st1 := match compoundEntry e with
             | some rn => (st.1, st.2 ++ [rn])
             | none => st
  match defEntry e with
  | some ci => (st1.1 ++ [ci], st1.2)
  | none => st1

/-- Diagnostic of one-component-per-file: the anchor node, the count of
remaining definitions and their comma-joined names. -/
structure OCDiag where
  anchor : CompInfo
  count : Nat
  names : String
  deriving DecidableEq

/-- Embeds the `Program:exit` handler: mark every collected component
whose name is in the compound-children set, keep the unmarked ones, and
when more than one remains report once, anchored on the second, with the
count and the joined name list. -/
def programExit (st : List CompInfo × List String) : List OCDiag :=
  let comps := st.1.map fun c => { c with isCompoundChild := st.2.contains c.name }
  let non := comps.filter fun c => !c.isCompoundChild
  if h : 1 < non.length then
    [{ anchor := non.get ⟨1, h⟩, count := non.length,
       names := String.intercalate ", " (non.map CompInfo.name) }]
  else []

/-- Whole-file run of one-component-per-file over its callback events. -/
def oneComponentRun (events : List CEvent) : List OCDiag :=
  programExit (events.foldl stepEvent ([], []))

/-- Declarative form: collect all accepted definitions and all
compound-children directly from the event list, then apply the end-of-file
report. -/
def expectedOneComponent (events : List CEvent) : List OCDiag :=
  programExit (events.filterMap defEntry, events.filterMap compoundEntry)

/-- Statement list of a minimal JSX-returning component body. -/
def cardStmts : List JStmt := [.ret (some .jsxElement)]

/-- Event for `function Card() { return <div/>; }`. -/
def evCard : CEvent := .funcDeclE (some "Card") cardStmts

/-- Event for `function CardHeader() { return <div/>; }`. -/
def evCardHeader : CEvent := .funcDeclE (some "CardHeader") cardStmts

/-- Event for `Card.Header = CardHeader`. -/
def evAssign : CEvent :=
  .assignE (.member (.ident "Card") (.ident "Header")) (.ident "CardHeader")

/-! ## no-response-data-return (src/rules/services/no-response-data-return.ts) -/

/-- Backslash-to-forward-slash normalization of a path. -/
def normalizeSlashes (s : String) : String :=
  ⟨s.data.map fun c => if c == '\\' then '/' else c⟩

/-- JS `String.includes` on strings. -/
def strIncludes (s pat : String) : Bool :=
  listIncludes pat.data s.data

/-- Embeds `matchesServicePath`: normalized path contains the marker
segment `src/services/`. -/
def matchesServicePath (filename : String) : Bool :=
  strIncludes (normalizeSlashes filename) "src/services/"

/-- The `while current is MemberExpression, current = current.object`
unwinding loop. -/
def unwindMember : JExpr → JExpr
  | .member o _ => unwindMember o
  | e => e

/-- Lower-cased string. -/
def lcStr (s : String) : String := ⟨lcList s⟩

/-- Embeds the root-name test of `isResponseDataAccess`: lower-cased name
includes `response`, includes `res`, equals `r`, or includes `result`. -/
def responseLikeName (nm : String) : Bool :=
  let l := lcStr nm
  strIncludes l "response" || strIncludes l "res" || l == "r" || strIncludes l "result"

/-- Embeds `isResponseDataAccess` on a member expression given as object
and property: the property must be the identifier `data`, and the root of
the object (member accesses unwound) must be a response-like identifier. -/
def isResponseDataAccess (obj prop : JExpr) : Bool :=
  match prop with
  | .ident pn =>
    if pn == "data" then
      match unwindMember obj with
      | .ident nm => responseLikeName nm
      | _ => false
    else false
  | _ => false

/-- Embeds `isDirectResponseDataReturn` on the return argument: a member
expression directly, or one wrapped in a ChainExpression; a missing
argument is `false`. -/
def isDirectResponseDataReturn : Option JExpr → Bool
  | none => false
  | some (.member o p) => isResponseDataAccess o p
  | some (.chainE e) =>
    match e with
    | .member o p => isResponseDataAccess o p
    | _ => false
  | some _ => false

/-- Diagnostic of no-response-data-return. -/
structure SDiag where
  messageId : String
  deriving DecidableEq

/-- Whole-file run of no-response-data-return: `create` registers no
handler at all outside service files, so such files yield nothing;
otherwise each return statement whose argument matches is reported. -/
def noResponseDataReturnRun (filename : String) (returnArgs : List (Option JExpr)) : List SDiag :=
  if matchesServicePath filename then
    (returnArgs.filter isDirectResponseDataReturn).map fun _ =>
      { messageId := "directResponseDataReturn" }
  else []

/-- Root-name predicate written from the claim text: exactly `response`,
`res`, or `r`, or a name containing `result`, case-insensitively. -/
def c7ClaimRootOk (nm : String) : Bool :=
  let l := lcStr nm
  l == "response" || l == "res" || l == "r" || strIncludes l "result"

/-- Amended root-name predicate: lower-cased name contains the substring
`res` (which subsumes `response` and `result`) or is exactly `r`. -/
def resSubstringOrR (nm : String) : Bool :=
  strIncludes (lcStr nm) "res" || lcStr nm == "r"

/-- Declarative member-access test parameterized by the root-name
predicate. -/
def accessWith (rootOk : String → Bool) (obj prop : JExpr) : Bool :=
  match prop with
  | .ident pn =>
    pn == "data" &&
      (match unwindMember obj with
       | .ident nm => rootOk nm
       | _ => false)
  | _ => false

/-- Declarative return-flag test parameterized by the root-name predicate:
the argument is a `.data` member access, directly or inside an
optional-chaining wrapper. -/
def returnFlagsWith (rootOk : String → Bool) : Option JExpr → Bool
  | none => false
  | some (.member o p) => accessWith rootOk o p
  | some (.chainE (.member o p)) => accessWith rootOk o p
  | some _ => false

/-- The return argument `address.data`: its root contains `res` as a
substring but is none of `response`, `res`, `r`, nor contains `result`. -/
def addressArg : Option JExpr :=
  some (.member (.ident "address") (.ident "data"))

/-! ## Memo import analysis and strategy (utils/ast-helpers.ts) -/

/-- The `ReactImportStyle` enum. -/
inductive ReactImportStyle where
  | NAMESPACE
  | DEFAULT_ONLY
  | NAMED_ONLY
  | MIXED
  | NONE
  deriving DecidableEq

/-- One import specifier with its source range. -/
inductive ImportSpecNode where
  | defaultSpec (range : Option (Nat × Nat))
  | namespaceSpec (range : Option (Nat × Nat))
  | namedSpec (importedName : String) (range : Option (Nat × Nat))
  deriving DecidableEq

/-- An import declaration: module source, specifiers, range. -/
structure ImportDeclNode where
  source : String
  specifiers : List ImportSpecNode
  range : Option (Nat × Nat)
  deriving DecidableEq

/-- The `ReactImportAnalysis` record. -/
structure ReactImportAnalysis where
  style : ReactImportStyle
  hasDefaultImport : Bool
  hasNamedImports : Bool
  hasMemoImport : Bool
  importNode : Option ImportDeclNode
  deriving DecidableEq

/-- The `ImportUpdateStrategy` enum. -/
inductive ImportUpdateStrategy where
  | NO_UPDATE
  | ADD_TO_NAMED
  | ADD_NAMED_TO_DEFAULT
  | CREATE_NEW_IMPORT
  deriving DecidableEq

/-- The `MemoStrategy` record. -/
structure MemoStrategy where
  memoReference : String
  needsMemoImport : Bool
  importUpdateStrategy : ImportUpdateStrategy
  deriving DecidableEq

/-- Embeds `selectMemoStrategy`: the if-chain over `hasMemoImport` and
the import style, whose final fall-through (the NONE style) creates a
new import. -/
def selectMemoStrategy (analysis : ReactImportAnalysis) : MemoStrategy :=
  if analysis.hasMemoImport then
    { memoReference := "memo", needsMemoImport := false, importUpdateStrategy := .NO_UPDATE }
  else if analysis.style == .NAMESPACE then
    { memoReference := "React.memo", needsMemoImport := false, importUpdateStrategy := .NO_UPDATE }
  else if analysis.style == .DEFAULT_ONLY then
    { memoReference := "React.memo", needsMemoImport := false, importUpdateStrategy := .NO_UPDATE }
  else if analysis.style == .NAMED_ONLY then
    { memoReference := "memo", needsMemoImport := true, importUpdateStrategy := .ADD_TO_NAMED }
  else if analysis.style == .MIXED then
    { memoReference := "memo", needsMemoImport := true, importUpdateStrategy := .ADD_TO_NAMED }
  else
    { memoReference := "memo", needsMemoImport := true, importUpdateStrategy := .CREATE_NEW_IMPORT }

/-- The same decision written as one exhaustive table over the analysis
shape, for comparison with the embedded if-chain. -/
def strategyTable (a : ReactImportAnalysis) : MemoStrategy :=
  if a.hasMemoImport then
    { memoReference := "memo", needsMemoImport := false, importUpdateStrategy := .NO_UPDATE }
  else
    match a.style with
    | .NAMESPACE =>
      { memoReference := "React.memo", needsMemoImport := false, importUpdateStrategy := .NO_UPDATE }
    | .DEFAULT_ONLY =>
      { memoReference := "React.memo", needsMemoImport := false, importUpdateStrategy := .NO_UPDATE }
    | .NAMED_ONLY =>
      { memoReference := "memo", needsMemoImport := true, importUpdateStrategy := .ADD_TO_NAMED }
    | .MIXED =>
      { memoReference := "memo", needsMemoImport := true, importUpdateStrategy := .ADD_TO_NAMED }
    | .NONE =>
      { memoReference := "memo", needsMemoImport := true, importUpdateStrategy := .CREATE_NEW_IMPORT }

/-- A text edit produced by the import fix synthesizer. -/
structure ImportFix where
  range : Nat × Nat
  text : String
  deriving DecidableEq

/-- Result of `updateImports`. -/
structure ImportUpdateResult where
  fixes : List ImportFix
  updatedImports : List String
  deriving DecidableEq

/-- A top-level statement of a program: an import declaration or other. -/
inductive TopStmt where
  | importStmt (d : ImportDeclNode)
  | otherTop
  deriving DecidableEq

/-- Program node: top-level statements and source range. -/
structure ProgramNode where
  body : List TopStmt
  range : Option (Nat × Nat)
  deriving DecidableEq

/-- Whether a specifier is a named import specifier. -/
def isNamedSpec : ImportSpecNode → Bool
  | .namedSpec _ _ => true
  | _ => false

/-- Range of a specifier. -/
def specRange : ImportSpecNode → Option (Nat × Nat)
  | .defaultSpec r => r
  | .namespaceSpec r => r
  | .namedSpec _ r => r

/-- Embeds `updateImports`: NO_UPDATE yields nothing; ADD_TO_NAMED appends
`, memo` after the last named specifier when the import node, its range,
a named specifier and its range all exist, else nothing;
ADD_NAMED_TO_DEFAULT appends after the default specifier; CREATE_NEW_IMPORT
inserts a fresh import line at the program start. -/
def updateImports (strategy : MemoStrategy) (importNode : Option ImportDeclNode)
    (programNode : ProgramNode) : ImportUpdateResult :=
  if strategy.importUpdateStrategy == .NO_UPDATE then
    { fixes := [], updatedImports := [] }
  else if strategy.importUpdateStrategy == .ADD_TO_NAMED then
    match importNode with
    | none => { fixes := [], updatedImports := [] }
    | some imp =>
      match imp.range with
      | none => { fixes := [], updatedImports := [] }
      | some _ =>
        match (imp.specifiers.filter isNamedSpec).getLast? with
        | none => { fixes := [], updatedImports := [] }
        | some last =>
          match specRange last with
          | none => { fixes := [], updatedImports := [] }
          | some r =>
            { fixes := [{ range := (r.2, r.2), text := ", memo" }], updatedImports := ["memo"] }
  else if strategy.importUpdateStrategy == .ADD_NAMED_TO_DEFAULT then
    match importNode with
    | none => { fixes := [], updatedImports := [] }
    | some imp =>
      match imp.range with
      | none => { fixes := [], updatedImports := [] }
      | some _ =>
        match imp.specifiers.find? (fun s => match s with | .defaultSpec _ => true | _ => false) with
        | none => { fixes := [], updatedImports := [] }
        | some ds =>
          match specRange ds with
          | none => { fixes := [], updatedImports := [] }
          | some r =>
            { fixes := [{ range := (r.2, r.2), text := ", \x7b memo \x7d" }],
              updatedImports := ["memo"] }
  else
    let insertPos := match programNode.range with
                     | some r => r.1
                     | none => 0
    { fixes := [{ range := (insertPos, insertPos),
                  text := "import \x7b memo \x7d from \x27react\x27;\n" }],
      updatedImports := ["memo"] }

/-- Import node of `import React from 'react';`. -/
def defaultOnlyImport : ImportDeclNode :=
  { source := "react", specifiers := [.defaultSpec (some (7, 12))], range := some (0, 26) }

/-- Analysis of a file importing react by default import only. -/
def defaultOnlyAnalysis : ReactImportAnalysis :=
  { style := .DEFAULT_ONLY, hasDefaultImport := true, hasNamedImports := false,
    hasMemoImport := false, importNode := some defaultOnlyImport }

/-- Import node of `import { useState } from 'react';` with the named
specifier spanning offsets 9-17. -/
def namedOnlyImport : ImportDeclNode :=
  { source := "react", specifiers := [.namedSpec "useState" (some (9, 17))], range := some (0, 33) }

/-- Analysis of a file importing react by named imports only. -/
def namedOnlyAnalysis : ReactImportAnalysis :=
  { style := .NAMED_ONLY, hasDefaultImport := false, hasNamedImports := true,
    hasMemoImport := false, importNode := some namedOnlyImport }

/-- Program stub used by the import fixtures. -/
def progStub : ProgramNode := { body := [], range := some (0, 100) }

/-! ## addTypeAnnotation fix synthesizer (utils/ast-helpers.ts) -/

/-- An identifier with its range, as the synthesizer reads it. -/
structure TIdent where
  name : String
  range : Option (Nat × Nat)
  deriving DecidableEq

/-- A function parameter: an identifier or an object pattern, each
possibly carrying an explicit type annotation, or another shape. -/
inductive TParam where
  | identP (name : String) (hasTypeAnn : Bool) (range : Option (Nat × Nat))
  | objectPatternP (hasTypeAnn : Bool) (range : Option (Nat × Nat))
  | otherP
  deriving DecidableEq

/-- Initializer of a variable declarator for the synthesizer. -/
inductive TInitExpr where
  | arrowT (params : List TParam)
  | otherInitT
  deriving DecidableEq

/-- Component node handed to the synthesizer. -/
inductive TComponent where
  | funcDeclT (id : Option TIdent) (params : List TParam) (bodyRange : Option (Nat × Nat))
  | varDeclT (init : Option TInitExpr)
  | otherT
  deriving DecidableEq

/-- The `TypeAnnotationStrategy` record. -/
structure TypeAnnotStrategy where
  propsType : String
  needsTypeImport : Bool
  typeImportSource : Option String
  needsComponentImport : Bool
  deriving DecidableEq

/-- Result of the type-annotation synthesizer. -/
structure AddTypeAnnotResult where
  fixes : List ImportFix
  success : Bool
  deriving DecidableEq

/-- First import declaration of the program with the given source. -/
def findImport (src : String) : List TopStmt → Option ImportDeclNode
  | [] => none
  | .importStmt d :: rest => if d.source == src then some d else findImport src rest
  | .otherTop :: rest => findImport src rest

/-- Names of the named specifiers of an import declaration. -/
def namedImportNames (d : ImportDeclNode) : List String :=
  d.specifiers.filterMap fun s =>
    match s with
    | .namedSpec n _ => some n
    | _ => none

/-- Import-side fixes of the synthesizer: when a type import is needed,
either extend an existing import of the source module with the missing
names or insert a fresh import at the program start. -/
def importSectionFixes (strategy : TypeAnnotStrategy) (programNode : ProgramNode) : List ImportFix :=
  if strategy.needsTypeImport then
    match strategy.typeImportSource with
    | none => []
    | some src =>
      match findImport src programNode.body with
      | some imp =>
        let importedNames := namedImportNames imp
        let needsSvgProps := !importedNames.contains "SvgProps"
        let needsSvg := strategy.needsComponentImport && !importedNames.contains "Svg"
        if needsSvgProps || needsSvg then
          match (imp.specifiers.filter isNamedSpec).getLast? with
          | none => []
          | some last =>
            match specRange last with
            | none => []
            | some r =>
              let toAdd := (if needsSvgProps then ["SvgProps"] else []) ++
                           (if needsSvg then ["Svg"] else [])
              [{ range := (r.2, r.2), text := ", " ++ String.intercalate ", " toAdd }]
        else []
      | none =>
        let toImport := ["SvgProps"] ++ (if strategy.needsComponentImport then ["Svg"] else [])
        let insertPos := match programNode.range with
                         | some r => r.1
                         | none => 0
        [{ range := (insertPos, insertPos),
           text := "import \x7b " ++ String.intercalate ", " toImport ++
                   " \x7d from \x27" ++ src ++ "\x27;\n" }]
  else []

/-- Parameter-side step of the synthesizer: `none` is the early
`return (fixes := [], success := false)` taken when the first parameter is
an identifier that already carries a type annotation; otherwise the list
of parameter fixes (possibly empty) to be continued with the import
section. -/
def paramSectionFixes (componentNode : TComponent) (strategy : TypeAnnotStrategy) :
    Option (List ImportFix) :=
  match componentNode with
  | .funcDeclT id params bodyRange =>
    match params with
    | firstParam :: _ =>
      match firstParam with
      | .identP _ true _ => none
      | .identP _ false (some r) =>
        some [{ range := (r.2, r.2), text := ": " ++ strategy.propsType }]
      | _ => some []
    | [] =>
      match id, bodyRange with
      | some i, some _ =>
        match i.range with
        | some ir =>
          some [{ range := (ir.2 + 1, ir.2 + 1), text := "props: " ++ strategy.propsType }]
        | none => some []
      | _, _ => some []
  | .varDeclT (some (.arrowT params)) =>
    match params with
    | firstParam :: _ =>
      match firstParam with
      | .identP _ true _ => none
      | .identP _ false (some r) =>
        some [{ range := (r.2, r.2), text := ": " ++ strategy.propsType }]
      | _ => some []
    | [] => some []
  | _ => some []

/-- Embeds `addTypeAnnotation`: the parameter section may return early
with no fix; otherwise its fixes are followed by the import-section fixes
and success is whether any fix was produced. -/
def addTypeAnnot (componentNode : TComponent) (strategy : TypeAnnotStrategy)
    (programNode : ProgramNode) : AddTypeAnnotResult :=
  match paramSectionFixes componentNode strategy with
  | none => { fixes := [], success := false }
  | some fs =>
    let fs2 := fs ++ importSectionFixes strategy programNode
    { fixes := fs2, success := decide (fs2.length > 0) }

/-- The React Native annotation strategy (SvgProps from react-native-svg). -/
def rnStrategy : TypeAnnotStrategy :=
  { propsType := "SvgProps", needsTypeImport := true,
    typeImportSource := some "react-native-svg", needsComponentImport := true }

/-- `function Icon({ size }: Props) { ... }`: the first parameter is an
object pattern that already carries a type annotation. -/
def annotatedPatternComp : TComponent :=
  .funcDeclT (some { name := "Icon", range := some (9, 13) })
    [.objectPatternP true (some (14, 30))] (some (33, 60))

/-- Empty program covering offsets 0-60. -/
def progEmpty : ProgramNode := { body := [], range := some (0, 60) }

/-! ## Tree walker (utils/ast-helpers.ts, traverseNode) -/

/-- Arena form of a node graph: node identities are indices, `children`
lists each node's structural children in field order then array order, and
`parent` holds the non-structural back-references. -/
structure WalkerGraph where
  children : List (List Nat)
  parent : List (Option Nat)
  deriving DecidableEq

/-- Structural children of a node (none outside the arena). -/
def wChildren (g : WalkerGraph) (u : Nat) : List Nat :=
  g.children.getD u []

/-- Embeds the recursive `traverse` of `traverseNode`: skip if already in
the visited set, otherwise record the visit (the callback fires here) and
descend into each structural child in order.  The fuel argument only
bounds the recursion depth; `traverseNode` supplies enough for the whole
arena. -/
def dfsAux (g : WalkerGraph) : Nat → Nat → List Nat → List Nat
  | 0, _, vis => vis
  | fuel + 1, u, vis =>
    if u ∈ vis then vis
    else (wChildren g u).foldl (fun acc c => dfsAux g fuel c acc) (vis ++ [u])

/-- Embeds `traverseNode(root, visitor)`: the visit order (equivalently,
the sequence of callback invocations), starting from a fresh empty
visited set on every call. -/
def traverseNode (g : WalkerGraph) (root : Nat) : List Nat :=
  dfsAux g (g.children.length + 1) root []

/-- One structural edge of the graph. -/
def WStep (g : WalkerGraph) (a b : Nat) : Prop :=
  b ∈ wChildren g a

/-- Structural reachability (never through `parent`). -/
def WReach (g : WalkerGraph) (a b : Nat) : Prop :=
  Relation.ReflTransGen (WStep g) a b

/-- Diamond-with-tail graph: node 0 points to 1 and 2, node 1 points to 2,
so node 2 is reachable along two different structural paths; parent
back-references point upward. -/
def gDiamond : WalkerGraph :=
  { children := [[1, 2], [2], []], parent := [none, some 0, some 0] }

/-! ## Usage-search equivalence -/

mutual

/-- Threaded-flag traversal equals flag-or-declarative-occurrence, node form. -/
theorem chkNode_or (p : String) (u : Bool) (n : ANode) :
    chkNode p u n = (u || identOccurs p n) := by
  cases n with
  | mk ty attrs fields =>
    cases u with
    | true => simp [chkNode]
    | false =>
      by_cases h : (ty == "Identifier" && attrs.lookup "name" == some p) = true
      · simp [chkNode, identOccurs, h]
      · have hf := chkFields_or p false fields
        simp [chkNode, identOccurs, h, hf]

/-- Threaded-flag traversal equals flag-or-declarative-occurrence, field form. -/
theorem chkFields_or (p : String) (u : Bool) (fs : AFields) :
    chkFields p u fs = (u || identOccursF p fs) := by
  cases fs with
  | nil => simp [chkFields, identOccursF]
  | cons k c rest =>
    by_cases hk : skippedKey k = true
    · have hr := chkFields_or p u rest
      simp [chkFields, identOccursF, hk, hr]
    · have hc := chkNode_or p u c
      have hr := chkFields_or p (chkNode p u c) rest
      have hk2 : skippedKey k = false := by
        cases hsk : skippedKey k
        · rfl
        · exact absurd hsk hk
      simp only [chkFields, identOccursF, hk2, Bool.not_false, Bool.true_and]
      rw [hr, hc, Bool.or_assoc]
      simp

end

/-! ## Walker lemmas -/

/-- Folding the walker over a child list only extends the visited list. -/
theorem foldl_dfs_extends (g : WalkerGraph) (f : Nat)
    (h : ∀ u vis, vis <+: dfsAux g f u vis) :
    ∀ (l : List Nat) (acc : List Nat), acc <+: l.foldl (fun a c => dfsAux g f c a) acc := by
  intro l
  induction l with
  | nil => intro acc; simp
  | cons c t ih =>
    intro acc
    simp only [List.foldl_cons]
    exact (h c acc).trans (ih _)

/-- The walker only extends the visited list it is given. -/
theorem dfs_extends (g : WalkerGraph) : ∀ fuel u vis, vis <+: dfsAux g fuel u vis := by
  intro fuel
  induction fuel with
  | zero => intro u vis; simp [dfsAux]
  | succ f ih =>
    intro u vis
    simp only [dfsAux]
    split
    · exact List.prefix_refl _
    · exact (List.prefix_append vis [u]).trans (foldl_dfs_extends g f ih _ _)

/-- Membership in the visited list is preserved by a walker call. -/
theorem dfs_mem_of_mem (g : WalkerGraph) (fuel u : Nat) (vis : List Nat) (x : Nat)
    (h : x ∈ vis) : x ∈ dfsAux g fuel u vis :=
  (dfs_extends g fuel u vis).subset h

/-- Folding the walker preserves freedom from duplicates. -/
theorem foldl_dfs_nodup (g : WalkerGraph) (f : Nat)
    (h : ∀ u vis, vis.Nodup → (dfsAux g f u vis).Nodup) :
    ∀ (l : List Nat) (acc : List Nat), acc.Nodup →
      (l.foldl (fun a c => dfsAux g f c a) acc).Nodup := by
  intro l
  induction l with
  | nil => intro acc hacc; simpa using hacc
  | cons c t ih =>
    intro acc hacc
    simp only [List.foldl_cons]
    exact ih _ (h c acc hacc)

/-- The walker's visited list stays duplicate-free: a node is recorded at
most once per call. -/
theorem dfs_nodup (g : WalkerGraph) : ∀ fuel u vis, vis.Nodup → (dfsAux g fuel u vis).Nodup := by
  intro fuel
  induction fuel with
  | zero => intro u vis h; simpa [dfsAux] using h
  | succ f ih =>
    intro u vis h
    simp only [dfsAux]
    split
    · exact h
    · next hne =>
      refine foldl_dfs_nodup g f ih _ _ ?_
      have hd : vis.Disjoint [u] := by
        intro a ha hb
        simp only [List.mem_singleton] at hb
        subst hb
        exact hne ha
      exact List.Nodup.append h (List.nodup_singleton u) hd

/-- Folding the walker keeps all visited indices below the arena size. -/
theorem foldl_dfs_bounded (g : WalkerGraph) (f n : Nat)
    (h : ∀ u vis, u < n → (∀ x ∈ vis, x < n) → ∀ x ∈ dfsAux g f u vis, x < n) :
    ∀ (l : List Nat) (acc : List Nat), (∀ c ∈ l, c < n) → (∀ x ∈ acc, x < n) →
      ∀ x ∈ l.foldl (fun a c => dfsAux g f c a) acc, x < n := by
  intro l
  induction l with
  | nil => intro acc _ hacc x hx; exact hacc x (by simpa using hx)
  | cons c t ih =>
    intro acc hl hacc
    simp only [List.foldl_cons]
    exact ih _ (fun d hd => hl d (List.mem_cons_of_mem _ hd))
      (h c acc (hl c (List.mem_cons_self _ _)) hacc)

/-- All indices the walker records lie inside the arena (children stay
in range by hypothesis). -/
theorem dfs_bounded (g : WalkerGraph) (n : Nat) (hcb : ∀ i, ∀ c ∈ wChildren g i, c < n) :
    ∀ fuel u vis, u < n → (∀ x ∈ vis, x < n) → ∀ x ∈ dfsAux g fuel u vis, x < n := by
  intro fuel
  induction fuel with
  | zero => intro u vis _ hvis x hx; exact hvis x (by simpa [dfsAux] using hx)
  | succ f ih =>
    intro u vis hu hvis
    simp only [dfsAux]
    split
    · exact hvis
    · refine foldl_dfs_bounded g f n ih _ _ (fun c hc => hcb u c hc) ?_
      intro x hx
      rcases List.mem_append.mp hx with h1 | h1
      · exact hvis x h1
      · simp only [List.mem_singleton] at h1
        subst h1
        exact hu

/-- Fold form of soundness: everything newly visited is reachable from
some child in the list. -/
theorem foldl_dfs_sound (g : WalkerGraph) (f : Nat)
    (h : ∀ u vis x, x ∈ dfsAux g f u vis → x ∈ vis ∨ WReach g u x) :
    ∀ (l : List Nat) (acc : List Nat) (x : Nat),
      x ∈ l.foldl (fun a c => dfsAux g f c a) acc →
      x ∈ acc ∨ ∃ c ∈ l, WReach g c x := by
  intro l
  induction l with
  | nil => intro acc x hx; left; simpa using hx
  | cons c t ih =>
    intro acc x hx
    simp only [List.foldl_cons] at hx
    rcases ih _ x hx with h1 | ⟨d, hd, h2⟩
    · rcases h c acc x h1 with h2 | h2
      · left; exact h2
      · right; exact ⟨c, List.mem_cons_self _ _, h2⟩
    · right; exact ⟨d, List.mem_cons_of_mem _ hd, h2⟩

/-- Soundness: every node the walker ever records was already visited or
is structurally reachable from the call's root. -/
theorem dfs_sound (g : WalkerGraph) :
    ∀ fuel u vis x, x ∈ dfsAux g fuel u vis → x ∈ vis ∨ WReach g u x := by
  intro fuel
  induction fuel with
  | zero => intro u vis x hx; left; simpa [dfsAux] using hx
  | succ f ih =>
    intro u vis x hx
    simp only [dfsAux] at hx
    split at hx
    · left; exact hx
    · rcases foldl_dfs_sound g f ih _ _ x hx with h1 | ⟨c, hc, h2⟩
      · rcases List.mem_append.mp h1 with h2 | h2
        · left; exact h2
        · simp only [List.mem_singleton] at h2
          subst h2
          right
          exact Relation.ReflTransGen.refl
      · right
        exact Relation.ReflTransGen.head hc h2

/-- A duplicate-free list of indices below `n` has length at most `n`. -/
theorem nodup_bounded_length_le {l : List Nat} {n : Nat} (hnd : l.Nodup)
    (hb : ∀ x ∈ l, x < n) : l.length ≤ n := by
  classical
  have h1 : l.toFinset ⊆ Finset.range n := by
    intro x hx
    rw [List.mem_toFinset] at hx
    exact Finset.mem_range.mpr (hb x hx)
  have h2 := Finset.card_le_card h1
  rw [List.toFinset_card_of_nodup hnd, Finset.card_range] at h2
  exact h2

/-- With enough fuel the walker records the root of its call. -/
theorem dfs_self_mem (g : WalkerGraph) {n : Nat} :
    ∀ fuel u vis, vis.Nodup → (∀ x ∈ vis, x < n) → u < n →
      n + 1 ≤ fuel + vis.length → u ∈ dfsAux g fuel u vis := by
  intro fuel u vis hnd hb hu hfuel
  by_cases hmem : u ∈ vis
  · exact dfs_mem_of_mem g fuel u vis u hmem
  · have hlen : vis.length + 1 ≤ n := by
      have hnd2 : (u :: vis).Nodup := List.nodup_cons.mpr ⟨hmem, hnd⟩
      have hb2 : ∀ x ∈ u :: vis, x < n := by
        intro x hx
        rcases List.mem_cons.mp hx with h | h
        · subst h; exact hu
        · exact hb x h
      simpa using nodup_bounded_length_le hnd2 hb2
    obtain ⟨f, rfl⟩ : ∃ f, fuel = f + 1 := ⟨fuel - 1, by omega⟩
    simp only [dfsAux]
    rw [if_neg hmem]
    exact (foldl_dfs_extends g f (dfs_extends g f) _ _).subset (by simp)

/-- Fold form of the closure property: every child in the list ends up
visited, and every visited node is either pre-existing or has all its
children visited. -/
theorem foldl_dfs_closed (g : WalkerGraph) (n f : Nat)
    (hcb : ∀ i, ∀ c ∈ wChildren g i, c < n)
    (ih : ∀ u vis, vis.Nodup → (∀ x ∈ vis, x < n) → u < n → n + 1 ≤ f + vis.length →
      ∀ v ∈ dfsAux g f u vis, v ∈ vis ∨ ∀ c ∈ wChildren g v, c ∈ dfsAux g f u vis) :
    ∀ (l : List Nat) (acc : List Nat), (∀ c ∈ l, c < n) → acc.Nodup → (∀ x ∈ acc, x < n) →
      n + 1 ≤ f + acc.length →
      (∀ c ∈ l, c ∈ l.foldl (fun a c2 => dfsAux g f c2 a) acc) ∧
      (∀ v ∈ l.foldl (fun a c2 => dfsAux g f c2 a) acc,
        v ∈ acc ∨ ∀ c ∈ wChildren g v, c ∈ l.foldl (fun a c2 => dfsAux g f c2 a) acc) := by
  intro l
  induction l with
  | nil =>
    intro acc _ _ _ _
    constructor
    · intro c hc
      exact absurd hc (List.not_mem_nil c)
    · intro v hv
      left
      simpa using hv
  | cons c t iht =>
    intro acc hl hnd hb hfuel
    simp only [List.foldl_cons]
    have hc_lt : c < n := hl c (List.mem_cons_self _ _)
    have ht_lt : ∀ d ∈ t, d < n := fun d hd => hl d (List.mem_cons_of_mem _ hd)
    have hnd2 : (dfsAux g f c acc).Nodup := dfs_nodup g f c acc hnd
    have hb2 : ∀ x ∈ dfsAux g f c acc, x < n := dfs_bounded g n hcb f c acc hc_lt hb
    have hlen2 : acc.length ≤ (dfsAux g f c acc).length := (dfs_extends g f c acc).length_le
    have hfuel2 : n + 1 ≤ f + (dfsAux g f c acc).length := by omega
    obtain ⟨hmem_t, hclosed_t⟩ := iht (dfsAux g f c acc) ht_lt hnd2 hb2 hfuel2
    have hmono : dfsAux g f c acc <+: t.foldl (fun a c2 => dfsAux g f c2 a) (dfsAux g f c acc) :=
      foldl_dfs_extends g f (dfs_extends g f) t (dfsAux g f c acc)
    have hcmem : c ∈ dfsAux g f c acc := dfs_self_mem g f c acc hnd hb hc_lt hfuel
    constructor
    · intro d hd
      rcases List.mem_cons.mp hd with h | h
      · subst h
        exact hmono.subset hcmem
      · exact hmem_t d h
    · intro v hv
      rcases hclosed_t v hv with h1 | h1
      · rcases ih c acc hnd hb hc_lt hfuel v h1 with h2 | h2
        · left; exact h2
        · right
          intro d hd
          exact hmono.subset (h2 d hd)
      · right; exact h1

/-- Closure: with enough fuel, every node the walker records that was not
pre-visited has all its structural children recorded too. -/
theorem dfs_closed (g : WalkerGraph) (n : Nat) (hcb : ∀ i, ∀ c ∈ wChildren g i, c < n) :
    ∀ fuel u vis, vis.Nodup → (∀ x ∈ vis, x < n) → u < n → n + 1 ≤ fuel + vis.length →
      ∀ v ∈ dfsAux g fuel u vis, v ∈ vis ∨ ∀ c ∈ wChildren g v, c ∈ dfsAux g fuel u vis := by
  intro fuel
  induction fuel with
  | zero =>
    intro u vis _ _ _ _ v hv
    left
    simpa [dfsAux] using hv
  | succ f ih =>
    intro u vis hnd hb hu hfuel v hv
    simp only [dfsAux] at hv ⊢
    by_cases hmem : u ∈ vis
    · rw [if_pos hmem] at hv ⊢
      left
      exact hv
    · rw [if_neg hmem] at hv ⊢
      have hnd2 : (vis ++ [u]).Nodup := by
        have hd : vis.Disjoint [u] := by
          intro a ha hb2
          simp only [List.mem_singleton] at hb2
          subst hb2
          exact hmem ha
        exact List.Nodup.append hnd (List.nodup_singleton u) hd
      have hb2 : ∀ x ∈ vis ++ [u], x < n := by
        intro x hx
        rcases List.mem_append.mp hx with h1 | h1
        · exact hb x h1
        · simp only [List.mem_singleton] at h1
          subst h1
          exact hu
      have hfuel2 : n + 1 ≤ f + (vis ++ [u]).length := by
        simp only [List.length_append, List.length_singleton]
        omega
      obtain ⟨hmem_all, hclosed⟩ :=
        foldl_dfs_closed g n f hcb ih (wChildren g u) (vis ++ [u])
          (fun c hc => hcb u c hc) hnd2 hb2 hfuel2
      rcases hclosed v hv with h1 | h1
      · rcases List.mem_append.mp h1 with h2 | h2
        · left; exact h2
        · simp only [List.mem_singleton] at h2
          subst h2
          right
          intro c hc
          exact hmem_all c hc
      · right; exact h1

/-- Children of indices outside the arena are empty. -/
theorem wChildren_eq_nil (g : WalkerGraph) (i : Nat) (h : g.children.length ≤ i) :
    wChildren g i = [] := by
  simp [wChildren, List.getD_eq_getElem?_getD, List.getElem?_eq_none h]

/-- The walker never reads the `parent` map. -/
theorem dfsAux_parent_irrel (ch : List (List Nat)) (p1 p2 : List (Option Nat)) :
    ∀ fuel u vis,
      dfsAux { children := ch, parent := p1 } fuel u vis =
      dfsAux { children := ch, parent := p2 } fuel u vis := by
  intro fuel
  induction fuel with
  | zero => intro u vis; rfl
  | succ f ih =>
    intro u vis
    simp only [dfsAux]
    have hfun : (fun (a : List Nat) (c : Nat) => dfsAux { children := ch, parent := p1 } f c a) =
        (fun (a : List Nat) (c : Nat) => dfsAux { children := ch, parent := p2 } f c a) := by
      funext a c
      exact ih c a
    rw [hfun]
    rfl

/-! ## Claim theorems -/

/-- C2: for every arena whose in-range children stay in range and every
root, the tree walker invokes its callback exactly once per node identity
(each structurally reachable node appears exactly once in the visit
order, even when reachable along several paths or cycles), it visits only
structurally reachable nodes, and the `parent` back-references never
influence the traversal; the visited set is created fresh inside the
call, so each call (hence any repeated call) yields this same full
visit order. -/
theorem traverseNode_visits_once (g : WalkerGraph) (root : Nat)
    (hcb : ∀ i < g.children.length, ∀ c ∈ wChildren g i, c < g.children.length)
    (hroot : root < g.children.length) :
    (∀ x, WReach g root x → (traverseNode g root).count x = 1) ∧
    (∀ x, x ∈ traverseNode g root → WReach g root x) ∧
    (∀ p2, traverseNode { children := g.children, parent := p2 } root = traverseNode g root) := by
  have hcb2 : ∀ i, ∀ c ∈ wChildren g i, c < g.children.length := by
    intro i c hc
    by_cases h : i < g.children.length
    · exact hcb i h c hc
    · rw [wChildren_eq_nil g i (by omega)] at hc
      exact absurd hc (List.not_mem_nil c)
  have hnodup : (traverseNode g root).Nodup :=
    dfs_nodup g (g.children.length + 1) root [] List.nodup_nil
  have hcomplete : ∀ x, WReach g root x → x ∈ traverseNode g root := by
    intro x h
    induction h with
    | refl =>
      exact dfs_self_mem g (g.children.length + 1) root [] List.nodup_nil
        (by intro x hx; exact absurd hx (List.not_mem_nil x)) hroot (by simp)
    | tail hsteps hstep ihx =>
      have hcl := dfs_closed g g.children.length hcb2 (g.children.length + 1) root []
        List.nodup_nil (by intro y hy; exact absurd hy (List.not_mem_nil y)) hroot
        (by simp) _ ihx
      rcases hcl with h1 | h1
      · exact absurd h1 (List.not_mem_nil _)
      · exact h1 _ hstep
  refine ⟨?_, ?_, ?_⟩
  · intro x hx
    exact List.count_eq_one_of_mem hnodup (hcomplete x hx)
  · intro x hx
    rcases dfs_sound g (g.children.length + 1) root [] x hx with h | h
    · exact absurd h (List.not_mem_nil x)
    · exact h
  · intro p2
    exact dfsAux_parent_irrel g.children p2 g.parent (g.children.length + 1) root []

/-- C2 witness: the diamond graph, whose node 2 is reachable from the
root along two different structural paths, instantiates the walker
theorem. -/
theorem traverseNode_visits_once_witness :
    (∀ x, WReach gDiamond 0 x → (traverseNode gDiamond 0).count x = 1) ∧
    (∀ x, x ∈ traverseNode gDiamond 0 → WReach gDiamond 0 x) ∧
    (∀ p2, traverseNode { children := gDiamond.children, parent := p2 } 0 =
      traverseNode gDiamond 0) :=
  traverseNode_visits_once gDiamond 0 (by decide) (by decide)

/-- C10: the catch-parameter usage check returns true exactly when an
`Identifier` node carrying the parameter's name occurs anywhere in the
block outside the `parent`, `range` and `loc` fields; a member-access
property name and an object-literal key are such occurrences, and a
catch clause whose parameter occurs only that way gets no
unused-parameter diagnostic. -/
theorem checkIfParamUsed_nonreference_occurrences :
    (∀ block p, checkIfParamUsed block p = identOccurs p block) ∧
    checkIfParamUsed blockEx1 "error" = true ∧
    checkIfParamUsed blockEx2 "error" = true ∧
    noEmptyCatchHandler scEmptySrc catchUsedEx = [] := by
  refine ⟨?_, by decide, by decide, by decide⟩
  intro block p
  rw [checkIfParamUsed, chkNode_or]
  simp

/-- C5: on a catch clause whose block is a non-empty BlockStatement, with
no ignore-intent comment and an identifier parameter that never occurs in
the block, the detector emits exactly the unused-parameter diagnostic —
naming the parameter in its data and carrying no fix — and not the
empty-handler diagnostic. -/
theorem unusedParam_only_diagnostic (sc : SourceCode) (c : CatchNode) (b : ANode) (p : String)
    (hb : c.body = some b)
    (hty : b.ty = "BlockStatement")
    (hne : AFields.countKey "body" b.fields ≠ 0)
    (hig : hasIntentionalIgnoreComment c sc.comments = false)
    (hp : c.param = some (identA p))
    (hocc : identOccurs p b = false) :
    noEmptyCatchHandler sc c =
      [{ messageId := "unusedParam", data := [("paramName", p)], fix := none }] := by
  have hempty : isEffectivelyEmpty c = false := by
    rw [isEffectivelyEmpty, hb]
    simp [hty, hne]
  have hused : checkIfParamUsed b p = false := by
    rw [checkIfParamUsed, chkNode_or]
    simpa using hocc
  simp [noEmptyCatchHandler, hempty, hig, hb, hp, hused, identA, ANode.ty, ANode.attrs]

/-- C5 witness: `catch (error) { console.log('x'); }` yields only the
fix-less unused-parameter diagnostic naming `error`. -/
theorem unusedParam_only_diagnostic_witness :
    noEmptyCatchHandler scLog catchLog =
      [{ messageId := "unusedParam", data := [("paramName", "error")], fix := none }] :=
  unusedParam_only_diagnostic scLog catchLog blockLog "error" rfl rfl (by decide)
    (by decide) rfl (by decide)

/-- C1: at `catch (e) {}` the detector emits the empty-handler diagnostic
whose fix inserts the line comment ` // intentionally ignored` directly
after the `catch` keyword; applying it yields
`catch // intentionally ignored (e) {}` — which differs from the claimed
`catch (e) { /* intentionally ignored */ }` and contains no newline, so
the line comment swallows `(e) {}` and the clause no longer parses. -/
theorem emptyCatch_fix_at_catch_e :
    noEmptyCatchHandler scCatchE catchE =
      [{ messageId := "emptyCatch", data := [],
         fix := some { pos := 5, text := " // intentionally ignored" } }] ∧
    applyEdit scCatchE.text { pos := 5, text := " // intentionally ignored" } =
      "catch // intentionally ignored (e) \x7b\x7d" ∧
    applyEdit scCatchE.text { pos := 5, text := " // intentionally ignored" } ≠
      "catch (e) \x7b /* intentionally ignored */ \x7d" ∧
    (applyEdit scCatchE.text
      { pos := 5, text := " // intentionally ignored" }).data.contains '\n' = false :=
  ⟨by decide, by decide, by decide, by decide⟩

/-- C8 counterexample: a malformed catch clause (missing body) makes the
emptiness classifier answer `true`, and the detector consequently emits a
diagnostic — an internal failure does not yield the neutral
no-diagnostic / false result there. -/
theorem malformed_catch_emits_diagnostic :
    isEffectivelyEmpty malformedCatch = true ∧
    noEmptyCatchHandler scEmptySrc malformedCatch ≠ [] :=
  ⟨rfl, by decide⟩

/-- C8 amended: every embedded callback and classifier is total and
returns a defined default on malformed shapes — `false` for the
ignore-comment test, the component classifier and an argument-less
return, the empty update for a missing import node — but the emptiness
classifier returns `true` on a missing body, so the catch handler emits
the fix-less empty-handler diagnostic there instead of staying silent. -/
theorem boundary_defaults_total :
    (∀ comments, hasIntentionalIgnoreComment malformedCatch comments = false) ∧
    isEffectivelyEmpty malformedCatch = true ∧
    (∀ sc, noEmptyCatchHandler sc malformedCatch =
      [{ messageId := "emptyCatch", data := [], fix := none }]) ∧
    isReactComponent (.varDeclR (some "X") none) = false ∧
    isReactComponent .otherR = false ∧
    isDirectResponseDataReturn none = false ∧
    updateImports ⟨"memo", true, .ADD_TO_NAMED⟩ none progStub =
      { fixes := [], updatedImports := [] } :=
  ⟨fun _ => rfl, rfl, fun _ => rfl, rfl, rfl, rfl, rfl⟩

/-- C6: for any file whose path, backslashes normalized to forward
slashes, does not contain the marker segment `src/services/`, the
passthrough detector registers no handler and yields no diagnostics
whatever the syntax tree contains. -/
theorem nonservice_path_yields_nothing (filename : String) (returnArgs : List (Option JExpr))
    (h : strIncludes (normalizeSlashes filename) "src/services/" = false) :
    noResponseDataReturnRun filename returnArgs = [] := by
  simp [noResponseDataReturnRun, matchesServicePath, h]

/-- C6 witness: a component-path file whose content contains a flaggable
`return response.data` still yields nothing. -/
theorem nonservice_path_yields_nothing_witness :
    noResponseDataReturnRun "src/components/Button.tsx"
      [some (.member (.ident "response") (.ident "data"))] = [] :=
  nonservice_path_yields_nothing "src/components/Button.tsx"
    [some (.member (.ident "response") (.ident "data"))] (by decide)

/-- Threading the one-component accumulators over the events equals
collecting definitions and compound children directly. -/
theorem foldl_stepEvent (events : List CEvent) :
    ∀ (cs : List CompInfo) (ks : List String),
      events.foldl stepEvent (cs, ks) =
        (cs ++ events.filterMap defEntry, ks ++ events.filterMap compoundEntry) := by
  induction events with
  | nil => intro cs ks; simp
  | cons e t ih =>
    intro cs ks
    simp only [List.foldl_cons, List.filterMap_cons]
    cases hce : compoundEntry e with
    | none =>
      cases hde : defEntry e with
      | none => simp [stepEvent, hce, hde, ih]
      | some ci => simp [stepEvent, hce, hde, ih]
    | some rn =>
      cases hde : defEntry e with
      | none => simp [stepEvent, hce, hde, ih]
      | some ci => simp [stepEvent, hce, hde, ih]

/-- C3: at end of file the rule reports over the collected definitions
minus those named on the right of a property assignment (in whatever
order the events arrived): more than one remaining yields one diagnostic
anchored on the second remaining definition with the count and the
comma-joined names, otherwise nothing.  The Card/CardHeader file is
silent with the compound assignment (before or after the definitions)
and reports count 2 anchored on CardHeader without it. -/
theorem oneComponent_end_of_file :
    (∀ events, oneComponentRun events = expectedOneComponent events) ∧
    oneComponentRun [evCard, evCardHeader, evAssign] = [] ∧
    oneComponentRun [evAssign, evCard, evCardHeader] = [] ∧
    oneComponentRun [evCard, evCardHeader] =
      [{ anchor := { name := "CardHeader", node := evCardHeader, isCompoundChild := false },
         count := 2, names := "Card, CardHeader" }] := by
  refine ⟨?_, by decide, by decide, by decide⟩
  intro events
  rw [oneComponentRun, expectedOneComponent, foldl_stepEvent]
  simp

/-- A substring hit of a longer pattern is a substring hit of each of its
prefixes. -/
theorem listIncludes_of_isPrefixOf {a b : List Char} (h : a.isPrefixOf b = true) :
    ∀ l, listIncludes b l = true → listIncludes a l = true := by
  intro l
  induction l with
  | nil =>
    intro hl
    cases b with
    | nil =>
      cases a with
      | nil => rfl
      | cons x xs => simp [List.isPrefixOf] at h
    | cons y ys => simp [listIncludes, List.isEmpty] at hl
  | cons c t ih =>
    intro hl
    simp only [listIncludes, Bool.or_eq_true] at hl ⊢
    rcases hl with h1 | h1
    · left
      have hab : a <+: b := List.isPrefixOf_iff_prefix.mp h
      have hbl : b <+: c :: t := List.isPrefixOf_iff_prefix.mp h1
      exact List.isPrefixOf_iff_prefix.mpr (hab.trans hbl)
    · right
      exact ih h1

/-- The source's four-way root-name disjunction collapses to: contains
`res`, or is exactly `r` (both `response` and `result` contain `res`). -/
theorem responseLikeName_eq_amended (nm : String) :
    responseLikeName nm = resSubstringOrR nm := by
  unfold responseLikeName resSubstringOrR
  cases h : strIncludes (lcStr nm) "res" with
  | true => simp [h]
  | false =>
    have h1 : strIncludes (lcStr nm) "response" = false := by
      cases h2 : strIncludes (lcStr nm) "response"
      · rfl
      · have h3 : listIncludes "res".data (lcStr nm).data = true :=
          listIncludes_of_isPrefixOf (by decide) _ h2
        have h4 : strIncludes (lcStr nm) "res" = true := h3
        rw [h] at h4
        exact absurd h4 (by simp)
    have h5 : strIncludes (lcStr nm) "result" = false := by
      cases h2 : strIncludes (lcStr nm) "result"
      · rfl
      · have h3 : listIncludes "res".data (lcStr nm).data = true :=
          listIncludes_of_isPrefixOf (by decide) _ h2
        have h4 : strIncludes (lcStr nm) "res" = true := h3
        rw [h] at h4
        exact absurd h4 (by simp)
    simp [h, h1, h5]

/-- The member-access test of the rule equals the declarative test with
the amended root-name predicate. -/
theorem isResponseDataAccess_eq (o p : JExpr) :
    isResponseDataAccess o p = accessWith resSubstringOrR o p := by
  cases p with
  | ident pn =>
    simp only [isResponseDataAccess, accessWith]
    by_cases hd : (pn == "data") = true
    · simp only [hd, if_true, Bool.true_and]
      cases hu : unwindMember o <;> simp [responseLikeName_eq_amended]
    · have hd2 : (pn == "data") = false := by
        revert hd
        cases pn == "data" <;> simp
      simp [hd2]
  | jsxElement => rfl
  | jsxFragment => rfl
  | lit => rfl
  | member o2 p2 => rfl
  | chainE e => rfl
  | otherE => rfl

/-- C7 counterexample: in a service file, `return address.data` is
flagged by the code — the lower-cased root `address` contains `res` —
although the claim's root-name condition (exactly `response`, `res`, `r`,
or containing `result`) rejects it. -/
theorem addressData_flagged_but_claim_rejects :
    isDirectResponseDataReturn addressArg = true ∧
    returnFlagsWith c7ClaimRootOk addressArg = false ∧
    noResponseDataReturnRun "src/services/api.ts" [addressArg] =
      [{ messageId := "directResponseDataReturn" }] :=
  ⟨by decide, by decide, by decide⟩

/-- C7 amended: in a service-layer file the detector flags a return
exactly when its argument — directly or inside an optional-chaining
wrapper — is a member access whose property is the identifier `data` and
whose unwound root identifier has a lower-cased name containing `res`
(which subsumes `response` and any name containing `result`) or exactly
`r`. -/
theorem directResponseDataReturn_characterization :
    (∀ arg, isDirectResponseDataReturn arg = returnFlagsWith resSubstringOrR arg) ∧
    (∀ filename args, noResponseDataReturnRun filename args =
      if matchesServicePath filename then
        (args.filter (returnFlagsWith resSubstringOrR)).map fun _ =>
          { messageId := "directResponseDataReturn" }
      else []) := by
  have hpt : ∀ arg, isDirectResponseDataReturn arg = returnFlagsWith resSubstringOrR arg := by
    intro arg
    match arg with
    | none => rfl
    | some (.member o p) => exact isResponseDataAccess_eq o p
    | some (.chainE e) =>
      cases e with
      | member o p => exact isResponseDataAccess_eq o p
      | jsxElement => rfl
      | jsxFragment => rfl
      | ident nm => rfl
      | lit => rfl
      | chainE e2 => rfl
      | otherE => rfl
    | some .jsxElement => rfl
    | some .jsxFragment => rfl
    | some (.ident nm) => rfl
    | some .lit => rfl
    | some .otherE => rfl
  refine ⟨hpt, ?_⟩
  intro filename args
  rw [noResponseDataReturnRun]
  by_cases h : matchesServicePath filename = true
  · simp only [h, if_true]
    rw [List.filter_congr (fun x _ => hpt x)]
  · have h2 : matchesServicePath filename = false := by
      revert h
      cases matchesServicePath filename <;> simp
    simp [h2]

/-- C4 counterexample: with only a default-style react import and no
memo import, the selector answers NO_UPDATE with the `React.memo` reference —
not a named-import edit — and the import updater accordingly produces no
fix at all. -/
theorem defaultOnly_no_named_edit :
    selectMemoStrategy defaultOnlyAnalysis =
      { memoReference := "React.memo", needsMemoImport := false,
        importUpdateStrategy := .NO_UPDATE } ∧
    (selectMemoStrategy defaultOnlyAnalysis).importUpdateStrategy ≠ .ADD_TO_NAMED ∧
    (selectMemoStrategy defaultOnlyAnalysis).importUpdateStrategy ≠ .CREATE_NEW_IMPORT ∧
    (selectMemoStrategy defaultOnlyAnalysis).importUpdateStrategy ≠ .ADD_NAMED_TO_DEFAULT ∧
    updateImports (selectMemoStrategy defaultOnlyAnalysis) (some defaultOnlyImport) progStub =
      { fixes := [], updatedImports := [] } :=
  ⟨by decide, by decide, by decide, by decide, by decide⟩

/-- C4 amended: the selector is a total deterministic decision table —
every analysis shape maps to exactly one strategy with no human
disambiguation; a named-only import maps to ADD_TO_NAMED, whose update
appends `, memo` after the last named specifier, while a default-only
style maps to NO_UPDATE with the `React.memo` reference. -/
theorem selectMemoStrategy_table :
    (∀ a, selectMemoStrategy a = strategyTable a) ∧
    (∀ a, ∃! s, selectMemoStrategy a = s) ∧
    selectMemoStrategy namedOnlyAnalysis =
      { memoReference := "memo", needsMemoImport := true,
        importUpdateStrategy := .ADD_TO_NAMED } ∧
    updateImports (selectMemoStrategy namedOnlyAnalysis) (some namedOnlyImport) progStub =
      { fixes := [{ range := (17, 17), text := ", memo" }], updatedImports := ["memo"] } ∧
    selectMemoStrategy defaultOnlyAnalysis =
      { memoReference := "React.memo", needsMemoImport := false,
        importUpdateStrategy := .NO_UPDATE } := by
  refine ⟨?_, ?_, by decide, by decide, by decide⟩
  · intro a
    obtain ⟨style, hd, hn, hm, imp⟩ := a
    cases hm <;> cases style <;> rfl
  · intro a
    exact ⟨selectMemoStrategy a, rfl, fun s hs => hs.symm⟩

/-- C9 counterexample: a function declaration whose first parameter is
an object pattern that already carries a type annotation still receives
an import edit (success true) under the React Native strategy. -/
theorem annotatedPattern_still_edited :
    addTypeAnnot annotatedPatternComp rnStrategy progEmpty =
      { fixes := [⟨(0, 0), "import \x7b SvgProps, Svg \x7d from \x27react-native-svg\x27;\n"⟩],
        success := true } ∧
    (addTypeAnnot annotatedPatternComp rnStrategy progEmpty).success ≠ false :=
  ⟨by decide, by decide⟩

/-- C9 amended: whenever the first parameter is an identifier that
already carries an explicit type annotation, the synthesizer returns the
empty fix list with success false — for function declarations and for
variable-bound arrow functions — and never produces an edit there. -/
theorem annotatedIdent_no_fix :
    (∀ nm r rest idO bodyR strategy prog,
      addTypeAnnot (.funcDeclT idO (.identP nm true r :: rest) bodyR) strategy prog =
        { fixes := [], success := false }) ∧
    (∀ nm r rest strategy prog,
      addTypeAnnot (.varDeclT (some (.arrowT (.identP nm true r :: rest)))) strategy prog =
        { fixes := [], success := false }) :=
  ⟨fun _ _ _ _ _ _ _ => rfl, fun _ _ _ _ _ => rfl⟩
